import Mathlib

/-!
Verification of the Layerforge python-core geometry pipeline.

This file gives a shallow embedding, in Lean 4, of the height-field and
mesh-generation code of the repository (`cheapforge/heightmap.py` and
`cheapforge/mesh_generator.py`), and proves or refutes the specified
properties of that code.

Modelling conventions:
* Python/numpy floating-point values are modelled as exact rationals (`ℚ`);
  the algorithms under study are affine arithmetic, so "within floating
  tolerance" claims become exact rational claims.
* numpy 2-D arrays are modelled by `Grid`: a pair of dimensions together
  with a total sample function.  Fallible numpy indexing (`IndexError`) is
  modelled with `Option`, including numpy's wrapping of negative indices.
* Python `int()` truncation toward zero on a rational is `pyInt`.
* The mutable generator objects (`HeightMapGenerator`, `MeshGenerator`)
  hold their state in explicit structures (`HMState`, `MGState`).
-/

namespace Layerforge

/-- Minimum of a list of rationals (`np.min` over a non-empty array;
the `[]` value is irrelevant and never used on empty input). -/
def listMin : List ℚ → ℚ
  | [] => 0
  | a :: l => l.foldl min a

/-- Maximum of a list of rationals (`np.max` over a non-empty array). -/
def listMax : List ℚ → ℚ
  | [] => 0
  | a :: l => l.foldl max a

theorem foldl_min_le_init (l : List ℚ) (a : ℚ) : l.foldl min a ≤ a := by
  induction l generalizing a with
  | nil => simp
  | cons b t ih => exact le_trans (ih (min a b)) (min_le_left a b)

theorem foldl_min_le_mem (l : List ℚ) : ∀ a x : ℚ, x ∈ l → l.foldl min a ≤ x := by
  induction l with
  | nil => intro a x hx; cases hx
  | cons b t ih =>
    intro a x hx
    rcases List.mem_cons.1 hx with rfl | hx'
    · exact le_trans (foldl_min_le_init t (min a x)) (min_le_right a x)
    · exact ih (min a b) x hx'

theorem foldl_min_mem (l : List ℚ) (a : ℚ) : l.foldl min a = a ∨ l.foldl min a ∈ l := by
  induction l generalizing a with
  | nil => exact Or.inl rfl
  | cons b t ih =>
    rcases ih (min a b) with h | h
    · rcases min_cases a b with ⟨he, _⟩ | ⟨he, _⟩
      · exact Or.inl (by rw [List.foldl_cons, h, he])
      · exact Or.inr (by rw [List.foldl_cons, h, he]; exact List.mem_cons_self b t)
    · exact Or.inr (List.mem_cons_of_mem b h)

theorem foldl_max_init_le (l : List ℚ) (a : ℚ) : a ≤ l.foldl max a := by
  induction l generalizing a with
  | nil => simp
  | cons b t ih => exact le_trans (le_max_left a b) (ih (max a b))

theorem foldl_max_mem_le (l : List ℚ) : ∀ a x : ℚ, x ∈ l → x ≤ l.foldl max a := by
  induction l with
  | nil => intro a x hx; cases hx
  | cons b t ih =>
    intro a x hx
    rcases List.mem_cons.1 hx with rfl | hx'
    · exact le_trans (le_max_right a x) (foldl_max_init_le t (max a x))
    · exact ih (max a b) x hx'

theorem foldl_max_mem (l : List ℚ) (a : ℚ) : l.foldl max a = a ∨ l.foldl max a ∈ l := by
  induction l generalizing a with
  | nil => exact Or.inl rfl
  | cons b t ih =>
    rcases ih (max a b) with h | h
    · rcases max_cases a b with ⟨he, _⟩ | ⟨he, _⟩
      · exact Or.inl (by rw [List.foldl_cons, h, he])
      · exact Or.inr (by rw [List.foldl_cons, h, he]; exact List.mem_cons_self b t)
    · exact Or.inr (List.mem_cons_of_mem b h)

theorem listMin_mem (l : List ℚ) (hne : l ≠ []) : listMin l ∈ l := by
  cases l with
  | nil => exact absurd rfl hne
  | cons a t =>
    show t.foldl min a ∈ a :: t
    rcases foldl_min_mem t a with h | h
    · rw [h]; exact List.mem_cons_self a t
    · exact List.mem_cons_of_mem a h

theorem listMin_le (l : List ℚ) (x : ℚ) (hx : x ∈ l) : listMin l ≤ x := by
  cases l with
  | nil => cases hx
  | cons a t =>
    show t.foldl min a ≤ x
    rcases List.mem_cons.1 hx with rfl | hx'
    · exact foldl_min_le_init t x
    · exact foldl_min_le_mem t a x hx'

theorem listMax_mem (l : List ℚ) (hne : l ≠ []) : listMax l ∈ l := by
  cases l with
  | nil => exact absurd rfl hne
  | cons a t =>
    show t.foldl max a ∈ a :: t
    rcases foldl_max_mem t a with h | h
    · rw [h]; exact List.mem_cons_self a t
    · exact List.mem_cons_of_mem a h

theorem le_listMax (l : List ℚ) (x : ℚ) (hx : x ∈ l) : x ≤ listMax l := by
  cases l with
  | nil => cases hx
  | cons a t =>
    show x ≤ t.foldl max a
    rcases List.mem_cons.1 hx with rfl | hx'
    · exact foldl_max_init_le t x
    · exact foldl_max_mem_le t a x hx'

theorem listMin_eq (l : List ℚ) (b : ℚ) (hb : b ∈ l) (hle : ∀ x ∈ l, b ≤ x) :
    listMin l = b :=
  le_antisymm (listMin_le l b hb)
    (hle _ (listMin_mem l (by rintro rfl; cases hb)))

theorem listMax_eq (l : List ℚ) (b : ℚ) (hb : b ∈ l) (hle : ∀ x ∈ l, x ≤ b) :
    listMax l = b :=
  le_antisymm (hle _ (listMax_mem l (by rintro rfl; cases hb)))
    (le_listMax l b hb)

/-- A numpy 2-D float array: `h` rows, `w` columns, and a (total) sample
function; only indices `i < h`, `j < w` are ever meaningful. -/
structure Grid where
  h : ℕ
  w : ℕ
  get : ℕ → ℕ → ℚ

/-- Build a `Grid` from a row-major list of rows (for concrete inputs). -/
def Grid.ofRows (rows : List (List ℚ)) : Grid :=
  ⟨rows.length, (rows.headD []).length, fun i j => (rows.getD i []).getD j 0⟩

/-- The samples of a grid, row-major. -/
def gridSamples (g : Grid) : List ℚ :=
  (List.range g.h).flatMap fun i => (List.range g.w).map fun j => g.get i j

/-- `np.max` over all samples of a grid. -/
def gridMax (g : Grid) : ℚ := listMax (gridSamples g)

/-- `np.min` over all samples of a grid. -/
def gridMin (g : Grid) : ℚ := listMin (gridSamples g)

theorem mem_gridSamples (g : Grid) (x : ℚ) :
    x ∈ gridSamples g ↔ ∃ i < g.h, ∃ j < g.w, x = g.get i j := by
  simp only [gridSamples, List.mem_flatMap, List.mem_map, List.mem_range]
  constructor
  · rintro ⟨i, hi, j, hj, rfl⟩; exact ⟨i, hi, j, hj, rfl⟩
  · rintro ⟨i, hi, j, hj, rfl⟩; exact ⟨i, hi, j, hj, rfl⟩

/-- The mutable state of `HeightMapGenerator`. -/
structure HMState where
  heightmap : Option Grid
  min_depth : ℚ
  max_depth : ℚ

/-- `HeightMapGenerator.generate`: stores the depth range and the linear
map `min_depth + image * (max_depth - min_depth)`; the source performs no
validation of the range or of the grid size. -/
def generate (image : Grid) (min_depth_mm max_depth_mm : ℚ) : HMState :=
  ⟨some ⟨image.h, image.w,
      fun i j => min_depth_mm + image.get i j * (max_depth_mm - min_depth_mm)⟩,
    min_depth_mm, max_depth_mm⟩

/-- Python `int()` on a float: truncation toward zero. -/
def pyInt (q : ℚ) : ℤ := if 0 ≤ q then ⌊q⌋ else -⌊-q⌋

/-- numpy 1-axis index resolution: in-range indices are used as is,
negative indices in `[-n, 0)` wrap to the end, anything else raises
`IndexError` (modelled as `none`). -/
def npIndex (n : ℕ) (i : ℤ) : Option ℕ :=
  if 0 ≤ i ∧ i < (n : ℤ) then some i.toNat
  else if -(n : ℤ) ≤ i ∧ i < 0 then some (i + n).toNat
  else none

/-- numpy 2-D element access `heightmap[i, j]` with `IndexError` as `none`. -/
def npGet (g : Grid) (i j : ℤ) : Option ℚ :=
  match npIndex g.h i, npIndex g.w j with
  | some a, some b => some (g.get a b)
  | _, _ => none

/-- `HeightMapGenerator.sample_at`: bilinear sampling at normalized
coordinates, translated line by line from the source; note the source
computes `x0 = int(px)` and `x1 = min(x0 + 1, w - 1)` without clamping
`x0` (or `y0`) to the valid index range. -/
def sample_at (st : HMState) (x y : ℚ) : Option ℚ :=
  match st.heightmap with
  | none => some 0
  | some g => do
      let px := x * ((g.w : ℚ) - 1)
      let py := y * ((g.h : ℚ) - 1)
      let x0 := pyInt px
      let y0 := pyInt py
      let x1 := min (x0 + 1) ((g.w : ℤ) - 1)
      let y1 := min (y0 + 1) ((g.h : ℤ) - 1)
      let fx := px - (x0 : ℚ)
      let fy := py - (y0 : ℚ)
      let v00 ← npGet g y0 x0
      let v10 ← npGet g y0 x1
      let v01 ← npGet g y1 x0
      let v11 ← npGet g y1 x1
      let v0 := v00 * (1 - fx) + v10 * fx
      let v1 := v01 * (1 - fx) + v11 * fx
      some (v0 * (1 - fy) + v1 * fy)

theorem pyInt_of_nonneg (q : ℚ) (h : 0 ≤ q) : pyInt q = ⌊q⌋ := if_pos h

theorem npIndex_eq_some (n : ℕ) (i : ℤ) (h0 : 0 ≤ i) (h1 : i < (n : ℤ)) :
    npIndex n i = some i.toNat := by
  simp [npIndex, h0, h1]

theorem npGet_eq_some (g : Grid) (i j : ℤ) (hi0 : 0 ≤ i) (hi1 : i < (g.h : ℤ))
    (hj0 : 0 ≤ j) (hj1 : j < (g.w : ℤ)) :
    npGet g i j = some (g.get i.toNat j.toNat) := by
  simp [npGet, npIndex_eq_some _ _ hi0 hi1, npIndex_eq_some _ _ hj0 hj1]

theorem pyInt_coord_bounds (c : ℚ) (n : ℕ) (hn : 1 ≤ n) (hc0 : 0 ≤ c) (hc1 : c ≤ 1) :
    0 ≤ pyInt (c * ((n : ℚ) - 1)) ∧ pyInt (c * ((n : ℚ) - 1)) < (n : ℤ) := by
  have hn' : (0 : ℚ) ≤ (n : ℚ) - 1 := by
    have : (1 : ℚ) ≤ (n : ℚ) := by exact_mod_cast hn
    linarith
  have hp0 : 0 ≤ c * ((n : ℚ) - 1) := mul_nonneg hc0 hn'
  have hp1 : c * ((n : ℚ) - 1) ≤ (n : ℚ) - 1 := by
    calc c * ((n : ℚ) - 1) ≤ 1 * ((n : ℚ) - 1) := mul_le_mul_of_nonneg_right hc1 hn'
    _ = (n : ℚ) - 1 := one_mul _
  rw [pyInt_of_nonneg _ hp0]
  constructor
  · exact Int.le_floor.2 (by exact_mod_cast hp0)
  · have h1 : ⌊c * ((n : ℚ) - 1)⌋ ≤ ⌊(n : ℚ) - 1⌋ := Int.floor_le_floor hp1
    have h2 : ⌊(n : ℚ) - 1⌋ = (n : ℤ) - 1 := by
      rw [show ((n : ℚ) - 1) = (((n : ℤ) - 1 : ℤ) : ℚ) by push_cast; ring,
        Int.floor_intCast]
    omega

/-- C3 (amended): for coordinates inside the documented domain `[0,1]` and a
non-degenerate array, `sample_at` performs only in-bounds accesses and
returns a value; with no heightmap it returns `0.0`. -/
theorem sample_at_safe (g : Grid) (mn mx x y : ℚ)
    (hh : 1 ≤ g.h) (hw : 1 ≤ g.w)
    (hx0 : 0 ≤ x) (hx1 : x ≤ 1) (hy0 : 0 ≤ y) (hy1 : y ≤ 1) :
    (∃ r, sample_at ⟨some g, mn, mx⟩ x y = some r) ∧
    sample_at ⟨none, mn, mx⟩ x y = some 0 := by
  refine ⟨?_, rfl⟩
  obtain ⟨hx00, hxlt⟩ := pyInt_coord_bounds x g.w hw hx0 hx1
  obtain ⟨hy00, hylt⟩ := pyInt_coord_bounds y g.h hh hy0 hy1
  have hx10 : 0 ≤ min (pyInt (x * ((g.w : ℚ) - 1)) + 1) ((g.w : ℤ) - 1) := by
    have hw' : (1 : ℤ) ≤ (g.w : ℤ) := by exact_mod_cast hw
    exact le_min (by omega) (by omega)
  have hx1lt : min (pyInt (x * ((g.w : ℚ) - 1)) + 1) ((g.w : ℤ) - 1) < (g.w : ℤ) := by
    have := min_le_right (pyInt (x * ((g.w : ℚ) - 1)) + 1) ((g.w : ℤ) - 1)
    omega
  have hy10 : 0 ≤ min (pyInt (y * ((g.h : ℚ) - 1)) + 1) ((g.h : ℤ) - 1) := by
    have hh' : (1 : ℤ) ≤ (g.h : ℤ) := by exact_mod_cast hh
    exact le_min (by omega) (by omega)
  have hy1lt : min (pyInt (y * ((g.h : ℚ) - 1)) + 1) ((g.h : ℤ) - 1) < (g.h : ℤ) := by
    have := min_le_right (pyInt (y * ((g.h : ℚ) - 1)) + 1) ((g.h : ℤ) - 1)
    omega
  rw [← Option.isSome_iff_exists]
  simp only [sample_at]
  rw [npGet_eq_some g _ _ hy00 hylt hx00 hxlt,
    npGet_eq_some g _ _ hy00 hylt hx10 hx1lt,
    npGet_eq_some g _ _ hy10 hy1lt hx00 hxlt,
    npGet_eq_some g _ _ hy10 hy1lt hx10 hx1lt]
  rfl

/-- C3 witness: a concrete 2×2 field sampled at (1/2, 1/2). -/
theorem sample_at_safe_witness :
    (∃ r, sample_at ⟨some (Grid.ofRows [[1, 2], [3, 4]]), 0, 1⟩ (1/2) (1/2) = some r) ∧
    sample_at ⟨none, 0, 1⟩ (1/2) (1/2) = some 0 :=
  sample_at_safe (Grid.ofRows [[1, 2], [3, 4]]) 0 1 (1/2) (1/2)
    (by norm_num [Grid.ofRows]) (by norm_num [Grid.ofRows])
    (by norm_num) (by norm_num) (by norm_num) (by norm_num)

/-- C3 counterexample: the claim promises clamping for coordinates outside
`[0,1]`, but at `x = 2` on a 2×2 field the source computes the column index
`x0 = int(2 * (2-1)) = 2`, an out-of-bounds access (`IndexError`), not a
clamped read. -/
theorem sample_at_oob_cx :
    sample_at ⟨some (Grid.ofRows [[1, 2], [3, 4]]), 0, 1⟩ 2 0 = none := by
  have hw : (Grid.ofRows [[1, 2], [3, 4]]).w = 2 := rfl
  have hh : (Grid.ofRows [[1, 2], [3, 4]]).h = 2 := rfl
  simp only [sample_at, hw, hh]
  have h2 : pyInt ((2 : ℚ) * ((2 : ℕ) - 1 : ℚ)) = 2 := by
    rw [pyInt]; norm_num
  have h0 : pyInt ((0 : ℚ) * ((2 : ℕ) - 1 : ℚ)) = 0 := by
    rw [pyInt]; norm_num
  rw [h2, h0]
  have hcol : npIndex (Grid.ofRows [[1, 2], [3, 4]]).w 2 = none := by
    rw [hw]; simp [npIndex]
  have hrow : npIndex (Grid.ofRows [[1, 2], [3, 4]]).h 0 = some 0 := by
    rw [hh]; simp [npIndex]
  simp [npGet, hcol, hrow]

/-- C4 (amended): `generate` performs no validation at all: for every
input grid and every depth pair (`max < min` and empty grids included) it
returns normally, stores the range, and produces the pointwise linear map
`min_depth + luminance * (max_depth - min_depth)`. -/
theorem generate_total_linear (image : Grid) (mn mx : ℚ) :
    (generate image mn mx).min_depth = mn ∧
    (generate image mn mx).max_depth = mx ∧
    ∃ gm, (generate image mn mx).heightmap = some gm ∧
      gm.h = image.h ∧ gm.w = image.w ∧
      ∀ i j, gm.get i j = mn + image.get i j * (mx - mn) :=
  ⟨rfl, rfl, _, rfl, rfl, rfl, fun _ _ => rfl⟩

/-- C4 counterexample: with `max_depth = 1 < 2 = min_depth` (and likewise
with an empty grid) `generate` does not fail — no `InvalidRangeError` or
`EmptyInputError` exists in the code base — it returns the linear map
(here `2 + (1/2)·(1-2) = 3/2`). -/
theorem generate_no_validation_cx :
    ((generate (Grid.ofRows [[1/2]]) 2 1).heightmap.map (fun g => g.get 0 0)
        = some (3/2) ∧ (1 : ℚ) < 2) ∧
    ∃ gm, (generate (Grid.ofRows []) 1 2).heightmap = some gm ∧ gm.h = 0 := by
  refine ⟨⟨?_, by norm_num⟩, _, rfl, rfl⟩
  show some ((2 : ℚ) + (1/2) * (1 - 2)) = some (3/2)
  exact congrArg some (by norm_num)

/-- numpy `astype(np.uint8)` on a float: truncation toward zero, wrapped
into `[0, 256)` (in the source it is only applied to values in `[0, 255]`). -/
def npUInt8 (q : ℚ) : ℚ := (((pyInt q).emod 256 : ℤ) : ℚ)

/-- `HeightMapGenerator._gaussian_blur`.  The PIL `GaussianBlur`
convolution itself is external to the repository (a C library); it enters
as the parameter `pil`, mapping the quantized uint8 image and the integer
radius to a same-shape image.  The normalization to `[0, 255]`, the uint8
quantization, the near-constant early return and the rescale are the
repository's own code and are translated here. -/
def gaussian_blur (pil : Grid → ℕ → Grid) (data : Grid) (sigma : ℚ) : Grid :=
  if sigma ≤ 0 then data
  else
    let min_val := gridMin data
    let max_val := gridMax data
    if max_val - min_val < 1/1000000 then data
    else
      let normalized : Grid := ⟨data.h, data.w,
        fun i j => npUInt8 ((data.get i j - min_val) / (max_val - min_val) * 255)⟩
      let radius := (max 1 (pyInt sigma)).toNat
      let blurred := pil normalized radius
      ⟨data.h, data.w,
        fun i j => blurred.get i j / 255 * (max_val - min_val) + min_val⟩

/-- `np.clip`. -/
def np_clip (x lo hi : ℚ) : ℚ := min (max x lo) hi

/-- `HeightMapGenerator.apply_detail_controls`: identity at 1.0, blur
below 1.0, unsharp mask (clipped to the stored depth range) above 1.0. -/
def apply_detail_controls (pil : Grid → ℕ → Grid) (st : HMState)
    (heightmap : Grid) (detail_size : ℚ) : Grid :=
  if detail_size = 1 then heightmap
  else if detail_size < 1 then
    gaussian_blur pil heightmap ((1 - detail_size) * 3)
  else
    let amount := (detail_size - 1) * (1/2)
    let blurred := gaussian_blur pil heightmap 1
    ⟨heightmap.h, heightmap.w,
      fun i j => np_clip
        (heightmap.get i j + amount * (heightmap.get i j - blurred.get i j))
        st.min_depth st.max_depth⟩

/-- C7: for a field produced by `generate` with range `min ≤ max` and any
`detail_factor > 1`, every sample of `apply_detail_controls` lies in
`[min_depth, max_depth]` — the `np.clip` guarantees this whatever the
external blur returned. -/
theorem apply_detail_clamp (pil : Grid → ℕ → Grid) (image : Grid)
    (mn mx d : ℚ) (hrange : mn ≤ mx) (hd : 1 < d) (gm : Grid)
    (_hgm : (generate image mn mx).heightmap = some gm) (i j : ℕ) :
    mn ≤ (apply_detail_controls pil (generate image mn mx) gm d).get i j ∧
    (apply_detail_controls pil (generate image mn mx) gm d).get i j ≤ mx := by
  rw [apply_detail_controls, if_neg (by intro h; rw [h] at hd; exact lt_irrefl 1 hd),
    if_neg (not_lt.2 (le_of_lt hd))]
  refine ⟨le_min (le_max_right _ _) hrange, min_le_right _ _⟩

/-- C7 witness: concrete generator output, identity blur, `d = 3/2`. -/
theorem apply_detail_clamp_witness :
    (1/2 : ℚ) ≤ 2 ∧ (1 : ℚ) < 3/2 ∧
    ((1/2 : ℚ) ≤ (apply_detail_controls (fun g _ => g)
        (generate (Grid.ofRows [[0, 1], [1, 0]]) (1/2) 2)
        ⟨2, 2, fun i j => 1/2 + (Grid.ofRows [[0, 1], [1, 0]]).get i j * (2 - 1/2)⟩
        (3/2)).get 0 0 ∧
      (apply_detail_controls (fun g _ => g)
        (generate (Grid.ofRows [[0, 1], [1, 0]]) (1/2) 2)
        ⟨2, 2, fun i j => 1/2 + (Grid.ofRows [[0, 1], [1, 0]]).get i j * (2 - 1/2)⟩
        (3/2)).get 0 0 ≤ 2) :=
  ⟨by norm_num, by norm_num,
    apply_detail_clamp (fun g _ => g) (Grid.ofRows [[0, 1], [1, 0]]) (1/2) 2 (3/2)
      (by norm_num) (by norm_num) _ rfl 0 0⟩

/-- One triangle vertex, in millimetres. -/
abbrev Vec3 := ℚ × ℚ × ℚ

/-- A triangle: three vertices in winding order. -/
abbrev Tri := Vec3 × Vec3 × Vec3

/-- The three vertices of a triangle. -/
def triVerts (t : Tri) : List Vec3 := [t.1, t.2.1, t.2.2]

/-- All vertices of a triangle soup (`mesh.vectors` flattened). -/
def meshVerts (m : List Tri) : List Vec3 := m.flatMap triVerts

/-- The mutable state of `MeshGenerator`. -/
structure MGState where
  mesh : Option (List Tri)

/-- `MeshGenerator.export_stl`: raises `ValueError("No mesh generated")`
when no mesh was generated; otherwise delegates the write to numpy-stl
`save` (which accepts a zero-triangle mesh) and returns the path. -/
def export_stl (st : MGState) (path : String) : Except String String :=
  match st.mesh with
  | none => Except.error "No mesh generated"
  | some _ => Except.ok path

/-- C5 (amended): `export_stl` fails — with `ValueError`, not any
`EmptyMeshError` — exactly when no mesh has been generated; any generated
mesh, zero-triangle ones included, is saved and the path returned. -/
theorem export_stl_spec (st : MGState) (path : String) :
    (st.mesh = none → export_stl st path = Except.error "No mesh generated") ∧
    ∀ m, st.mesh = some m → export_stl st path = Except.ok path := by
  constructor
  · intro h; rw [export_stl, h]
  · intro m h; rw [export_stl, h]

/-- C5 witness: both branches at concrete states. -/
theorem export_stl_spec_witness :
    export_stl ⟨none⟩ "model.stl" = Except.error "No mesh generated" ∧
    export_stl ⟨some [((0, 0, 0), (1, 0, 0), (0, 1, 0))]⟩ "model.stl"
      = Except.ok "model.stl" :=
  ⟨(export_stl_spec ⟨none⟩ "model.stl").1 rfl,
    (export_stl_spec ⟨some [((0, 0, 0), (1, 0, 0), (0, 1, 0))]⟩ "model.stl").2
      [((0, 0, 0), (1, 0, 0), (0, 1, 0))] rfl⟩

/-- C5 counterexample: a generated mesh with zero triangles is exported
without any `EmptyMeshError` (no such class exists in the code base): the
call succeeds and returns the path. -/
theorem export_stl_empty_cx :
    export_stl ⟨some []⟩ "out.stl" = Except.ok "out.stl" := rfl

/-- `np.frombuffer(...).reshape((height, width))`: flat row-major buffer
read as a `height × width` grid. -/
def reshapeGrid (buf : List ℚ) (width height : ℕ) : Grid :=
  ⟨height, width, fun i j => buf.getD (i * width + j) 0⟩

/-- `HeightMapGenerator.from_base64`, numeric layer: it receives the
decoded flat float32 sample list (the byte/base64 transport itself is the
bit-exact model below), reshapes it — numpy errors unless the element
count is `height * width` — and records `np.min`/`np.max` of the reshaped
samples as the new `min_depth`/`max_depth`. -/
def from_base64_num (buf : List ℚ) (width height : ℕ) : Option HMState :=
  if buf.length = height * width then
    some ⟨some (reshapeGrid buf width height),
      listMin (gridSamples (reshapeGrid buf width height)),
      listMax (gridSamples (reshapeGrid buf width height))⟩
  else none

theorem rowMajor_eq (w : ℕ) : ∀ h : ℕ, ∀ buf : List ℚ, buf.length = h * w →
    ((List.range h).flatMap fun i =>
      (List.range w).map fun j => buf.getD (i * w + j) 0) = buf := by
  intro h
  induction h with
  | zero =>
    intro buf hlen
    simp only [List.range_zero, List.flatMap_nil]
    symm
    rw [← List.length_eq_zero]
    omega
  | succ h ih =>
    intro buf hlen
    have hwle : w ≤ buf.length := by
      rw [hlen, Nat.succ_mul]; omega
    have hrow0 : ((List.range w).map fun j => buf.getD (0 * w + j) 0)
        = buf.take w := by
      refine List.ext_getElem (by simp; omega) ?_
      intro k hk1 hk2
      simp only [List.getElem_map, List.getElem_range, List.getElem_take]
      have hk : k < buf.length := by
        have := List.length_take w buf; omega
      rw [Nat.zero_mul, Nat.zero_add, List.getD_eq_getElem buf 0 hk]
    have hdrop : ∀ n : ℕ, (buf.drop w).getD n 0 = buf.getD (w + n) 0 := by
      intro n
      simp [List.getD, List.getElem?_drop]
    have hrest : ((List.range h).flatMap fun i =>
        (List.range w).map fun j => (buf.drop w).getD (i * w + j) 0)
        = buf.drop w := by
      refine ih (buf.drop w) ?_
      rw [List.length_drop, hlen, Nat.succ_mul]; omega
    calc ((List.range (h + 1)).flatMap fun i =>
            (List.range w).map fun j => buf.getD (i * w + j) 0)
        = ((List.range w).map fun j => buf.getD (0 * w + j) 0)
            ++ (((List.range h).map Nat.succ).flatMap fun i =>
              (List.range w).map fun j => buf.getD (i * w + j) 0) := by
          rw [List.range_succ_eq_map, List.flatMap_cons]
      _ = buf.take w ++ ((List.range h).flatMap fun i =>
            (List.range w).map fun j => buf.getD ((i + 1) * w + j) 0) := by
          rw [hrow0, List.flatMap_map]
      _ = buf.take w ++ ((List.range h).flatMap fun i =>
            (List.range w).map fun j => (buf.drop w).getD (i * w + j) 0) := by
          congr 1
          refine List.flatMap_congr ?_
          intro i _
          refine List.map_congr_left ?_
          intro j _
          rw [hdrop]
          congr 1
          ring
      _ = buf.take w ++ buf.drop w := by rw [hrest]
      _ = buf := List.take_append_drop w buf

theorem gridSamples_reshape (buf : List ℚ) (width height : ℕ)
    (hlen : buf.length = height * width) :
    gridSamples (reshapeGrid buf width height) = buf := by
  simpa [gridSamples, reshapeGrid] using rowMajor_eq width height buf hlen

/-- C10: `from_base64` sets `min_depth`/`max_depth` to the minimum and
maximum of the decoded samples; the construction-time depth range is not
in the transport blob, and a bound is recovered exactly when some sample
attains it. -/
theorem from_base64_minmax (buf : List ℚ) (width height : ℕ)
    (hne : buf ≠ []) (hlen : buf.length = height * width) :
    ∃ st, from_base64_num buf width height = some st ∧
      st.min_depth = listMin buf ∧ st.max_depth = listMax buf ∧
      (∀ m, (∀ s ∈ buf, m ≤ s) → (st.min_depth = m ↔ m ∈ buf)) ∧
      (∀ M, (∀ s ∈ buf, s ≤ M) → (st.max_depth = M ↔ M ∈ buf)) := by
  have hs : gridSamples (reshapeGrid buf width height) = buf :=
    gridSamples_reshape buf width height hlen
  refine ⟨_, by rw [from_base64_num, if_pos hlen], ?_, ?_, ?_, ?_⟩
  · show listMin (gridSamples (reshapeGrid buf width height)) = listMin buf
    rw [hs]
  · show listMax (gridSamples (reshapeGrid buf width height)) = listMax buf
    rw [hs]
  · intro m hm
    show listMin (gridSamples (reshapeGrid buf width height)) = m ↔ m ∈ buf
    rw [hs]
    constructor
    · rintro rfl; exact listMin_mem buf hne
    · intro hmem; exact listMin_eq buf m hmem hm
  · intro M hM
    show listMax (gridSamples (reshapeGrid buf width height)) = M ↔ M ∈ buf
    rw [hs]
    constructor
    · rintro rfl; exact listMax_mem buf hne
    · intro hmem; exact listMax_eq buf M hmem hM

/-- C10 witness: a concrete 2×2 buffer. -/
theorem from_base64_minmax_witness :
    ([2, 1, 5, 3] : List ℚ) ≠ [] ∧
    ∃ st, from_base64_num [2, 1, 5, 3] 2 2 = some st ∧
      st.min_depth = listMin [2, 1, 5, 3] ∧ st.max_depth = listMax [2, 1, 5, 3] ∧
      (∀ m, (∀ s ∈ ([2, 1, 5, 3] : List ℚ), m ≤ s) → (st.min_depth = m ↔ m ∈ ([2, 1, 5, 3] : List ℚ))) ∧
      (∀ M, (∀ s ∈ ([2, 1, 5, 3] : List ℚ), s ≤ M) → (st.max_depth = M ↔ M ∈ ([2, 1, 5, 3] : List ℚ))) :=
  ⟨by simp, from_base64_minmax [2, 1, 5, 3] 2 2 (by simp) (by simp)⟩

/-!
Bit-exact model of the base64 transport (`to_base64` / `from_base64`).

For the round-trip claim the samples are modelled by their IEEE-754
float32 *bit patterns* (naturals below `2^32`): the claim is about a field
that already holds float32 samples, so `astype(np.float32)` is the
identity, and the serialization chain — `tobytes` (4 little-endian bytes
per sample, row-major), `base64.b64encode`, `base64.b64decode`,
`np.frombuffer(dtype=float32)`, `reshape((height, width))` — performs no
arithmetic on the samples, only byte shuffling, so the bit pattern is the
faithful unit of transport.  `b64encode`/`b64decode` model the Python
`base64` standard library (RFC 4648 alphabet with `=` padding).
-/

/-- The RFC 4648 base64 alphabet: value → character. -/
def sextetChar (n : ℕ) : Char :=
  if n < 26 then Char.ofNat (65 + n)
  else if n < 52 then Char.ofNat (97 + (n - 26))
  else if n < 62 then Char.ofNat (48 + (n - 52))
  else if n = 62 then '+' else '/'

/-- The RFC 4648 base64 alphabet: character → value. -/
def charSextet (c : Char) : ℕ :=
  if 65 ≤ c.toNat ∧ c.toNat ≤ 90 then c.toNat - 65
  else if 97 ≤ c.toNat ∧ c.toNat ≤ 122 then c.toNat - 97 + 26
  else if 48 ≤ c.toNat ∧ c.toNat ≤ 57 then c.toNat - 48 + 52
  else if c = '+' then 62 else 63

theorem charSextet_sextetChar : ∀ n < 64, charSextet (sextetChar n) = n := by decide

theorem sextetChar_ne_pad : ∀ n < 64, sextetChar n ≠ '=' := by decide

/-- `base64.b64encode` on a byte list: 3-byte groups become 4 alphabet
characters; a 1- or 2-byte tail is padded with `=`. -/
def b64encode : List ℕ → List Char
  | [] => []
  | [b0] => [sextetChar (b0 / 4), sextetChar (b0 % 4 * 16), '=', '=']
  | [b0, b1] => [sextetChar (b0 / 4), sextetChar (b0 % 4 * 16 + b1 / 16),
      sextetChar (b1 % 16 * 4), '=']
  | b0 :: b1 :: b2 :: rest =>
      sextetChar (b0 / 4) :: sextetChar (b0 % 4 * 16 + b1 / 16)
        :: sextetChar (b1 % 16 * 4 + b2 / 64) :: sextetChar (b2 % 64) :: b64encode rest

/-- `base64.b64decode` on well-formed base64 text. -/
def b64decode : List Char → List ℕ
  | [c0, c1, '=', '='] => [charSextet c0 * 4 + charSextet c1 / 16]
  | [c0, c1, c2, '='] =>
      [charSextet c0 * 4 + charSextet c1 / 16,
       charSextet c1 % 16 * 16 + charSextet c2 / 4]
  | c0 :: c1 :: c2 :: c3 :: rest =>
      (charSextet c0 * 4 + charSextet c1 / 16)
        :: (charSextet c1 % 16 * 16 + charSextet c2 / 4)
        :: (charSextet c2 % 4 * 64 + charSextet c3)
        :: b64decode rest
  | _ => []

theorem b64decode_cons (c0 c1 c2 c3 : Char) (rest : List Char) (h3 : c3 ≠ '=') :
    b64decode (c0 :: c1 :: c2 :: c3 :: rest) =
      (charSextet c0 * 4 + charSextet c1 / 16)
        :: (charSextet c1 % 16 * 16 + charSextet c2 / 4)
        :: (charSextet c2 % 4 * 64 + charSextet c3)
        :: b64decode rest := by
  rw [b64decode.eq_def]
  split
  · rename_i heq; injection heq with h1 heq; injection heq with h2 heq
    injection heq with ha heq; injection heq with hb heq
    exact absurd hb h3
  · rename_i heq; injection heq with h1 heq; injection heq with h2 heq
    injection heq with ha heq; injection heq with hb heq
    exact absurd hb h3
  · rename_i heq; injection heq with h1 heq; injection heq with h2 heq
    injection heq with ha heq; injection heq with hb heq
    subst h1; subst h2; subst ha; subst hb; subst heq; rfl
  · rename_i hne; exact (hne c0 c1 c2 c3 rest rfl).elim

theorem b64decode_three (c0 c1 c2 : Char) (h2 : c2 ≠ '=') :
    b64decode [c0, c1, c2, '='] =
      [charSextet c0 * 4 + charSextet c1 / 16,
       charSextet c1 % 16 * 16 + charSextet c2 / 4] := by
  rw [b64decode.eq_def]
  split
  · rename_i heq; injection heq with h1 heq; injection heq with h2' heq
    injection heq with ha heq
    exact absurd ha h2
  · rename_i heq; injection heq with h1 heq; injection heq with h2' heq
    injection heq with ha heq
    subst h1; subst h2'; subst ha; rfl
  · rename_i hmiss1 hmiss2 heq; injection heq with h1 heq; injection heq with h2' heq
    injection heq with ha heq; injection heq with hb heq
    exact (hmiss2 hb.symm heq.symm).elim
  · rename_i hne; exact (hne c0 c1 c2 '=' [] rfl).elim

theorem b64_roundtrip : ∀ bs : List ℕ, (∀ b ∈ bs, b < 256) →
    b64decode (b64encode bs) = bs
  | [], _ => rfl
  | [b0], hb => by
      have h0 : b0 < 256 := hb b0 (by simp)
      show b64decode [sextetChar (b0 / 4), sextetChar (b0 % 4 * 16), '=', '='] = [b0]
      simp only [b64decode]
      rw [charSextet_sextetChar _ (by omega), charSextet_sextetChar _ (by omega)]
      simp only [List.cons.injEq, and_true]
      omega
  | [b0, b1], hb => by
      have h0 : b0 < 256 := hb b0 (by simp)
      have h1 : b1 < 256 := hb b1 (by simp)
      show b64decode [sextetChar (b0 / 4), sextetChar (b0 % 4 * 16 + b1 / 16),
        sextetChar (b1 % 16 * 4), '='] = [b0, b1]
      rw [b64decode_three _ _ _ (sextetChar_ne_pad _ (by omega))]
      rw [charSextet_sextetChar _ (by omega), charSextet_sextetChar _ (by omega),
        charSextet_sextetChar _ (by omega)]
      simp only [List.cons.injEq, and_true]
      omega
  | b0 :: b1 :: b2 :: rest, hb => by
      have h0 : b0 < 256 := hb b0 (by simp)
      have h1 : b1 < 256 := hb b1 (by simp)
      have h2 : b2 < 256 := hb b2 (by simp)
      have ih := b64_roundtrip rest (fun b hbm => hb b (by simp [hbm]))
      show b64decode (sextetChar (b0 / 4) :: sextetChar (b0 % 4 * 16 + b1 / 16)
        :: sextetChar (b1 % 16 * 4 + b2 / 64) :: sextetChar (b2 % 64)
        :: b64encode rest) = b0 :: b1 :: b2 :: rest
      rw [b64decode_cons _ _ _ _ _ (sextetChar_ne_pad _ (by omega))]
      rw [charSextet_sextetChar _ (by omega), charSextet_sextetChar _ (by omega),
        charSextet_sextetChar _ (by omega), charSextet_sextetChar _ (by omega)]
      rw [ih]
      simp only [List.cons.injEq, and_true]
      omega

/-- A float32 word to its 4 bytes, little-endian (`tobytes`). -/
def wordToBytes (x : ℕ) : List ℕ :=
  [x % 256, x / 256 % 256, x / 65536 % 256, x / 16777216 % 256]

/-- 4-byte little-endian groups back to float32 words (`np.frombuffer`
with `dtype=np.float32`). -/
def bytesToWords : List ℕ → List ℕ
  | b0 :: b1 :: b2 :: b3 :: rest =>
      (b0 + 256 * b1 + 65536 * b2 + 16777216 * b3) :: bytesToWords rest
  | _ => []

theorem wordToBytes_lt (x : ℕ) : ∀ b ∈ wordToBytes x, b < 256 := by
  intro b hb
  simp only [wordToBytes, List.mem_cons, List.not_mem_nil, or_false] at hb
  rcases hb with rfl | rfl | rfl | rfl <;> omega

theorem bytesToWords_wordToBytes (ws : List ℕ) (hw : ∀ x ∈ ws, x < 4294967296) :
    bytesToWords (ws.flatMap wordToBytes) = ws := by
  induction ws with
  | nil => rfl
  | cons x t ih =>
    have hx : x < 4294967296 := hw x (by simp)
    show bytesToWords (x % 256 :: x / 256 % 256 :: x / 65536 % 256
      :: x / 16777216 % 256 :: t.flatMap wordToBytes) = x :: t
    rw [bytesToWords]
    rw [ih (fun y hy => hw y (by simp [hy]))]
    simp only [List.cons.injEq, and_true]
    omega

theorem chunk_flatten (width : ℕ) : ∀ rows : List (List ℕ),
    (∀ r ∈ rows, r.length = width) →
    ((List.range rows.length).map fun i =>
      ((rows.flatten).drop (i * width)).take width) = rows := by
  intro rows
  induction rows with
  | nil => intro _; rfl
  | cons r t ih =>
    intro hr
    have hrl : r.length = width := hr r (by simp)
    rw [List.length_cons, List.range_succ_eq_map, List.map_cons, List.map_map]
    congr 1
    · rw [Nat.zero_mul, List.drop_zero, List.flatten_cons, ← hrl, List.take_left]
    · have hcomp : ((fun i => ((r :: t).flatten.drop (i * width)).take width) ∘ Nat.succ)
          = fun i => (t.flatten.drop (i * width)).take width := by
        funext i
        show (((r :: t).flatten.drop ((i + 1) * width)).take width)
          = (t.flatten.drop (i * width)).take width
        rw [List.flatten_cons, Nat.succ_mul, Nat.add_comm, ← List.drop_drop, ← hrl,
          List.drop_left]
      rw [hcomp]
      exact ih (fun s hs => hr s (by simp [hs]))

/-- `HeightMapGenerator.to_base64`, bit-exact: float32 samples row-major
to little-endian bytes, then base64 text. -/
def to_base64 (rows : List (List ℕ)) : List Char :=
  b64encode (rows.flatten.flatMap wordToBytes)

/-- `HeightMapGenerator.from_base64`, bit-exact transport layer: decode
the base64 text to bytes, read float32 words, and reshape into `height`
rows of `width` samples (numpy's `reshape` errors unless the count
matches). -/
def from_base64 (s : List Char) (width height : ℕ) : Option (List (List ℕ)) :=
  let words := bytesToWords (b64decode s)
  if words.length = height * width then
    some ((List.range height).map fun i => (words.drop (i * width)).take width)
  else none

/-- C6: serializing a float32 height field with `to_base64` and
reconstructing with the same width/height yields bit-identical samples. -/
theorem base64_roundtrip_bitexact (rows : List (List ℕ)) (width height : ℕ)
    (hh : rows.length = height) (hwd : ∀ r ∈ rows, r.length = width)
    (hval : ∀ r ∈ rows, ∀ x ∈ r, x < 4294967296) :
    from_base64 (to_base64 rows) width height = some rows := by
  have hjoin : ∀ x ∈ rows.flatten, x < 4294967296 := by
    intro x hx
    rw [List.mem_flatten] at hx
    obtain ⟨r, hr, hxr⟩ := hx
    exact hval r hr x hxr
  have hbytes : ∀ b ∈ rows.flatten.flatMap wordToBytes, b < 256 := by
    intro b hb
    rw [List.mem_flatMap] at hb
    obtain ⟨x, _, hbx⟩ := hb
    exact wordToBytes_lt x b hbx
  have hwords : bytesToWords (b64decode (to_base64 rows)) = rows.flatten := by
    rw [to_base64, b64_roundtrip _ hbytes, bytesToWords_wordToBytes _ hjoin]
  have hlen : rows.flatten.length = height * width := by
    rw [List.length_flatten]
    have hrep : rows.map List.length = List.replicate height width := by
      refine List.eq_replicate_iff.2 ⟨by simp [hh], ?_⟩
      intro b hb
      rw [List.mem_map] at hb
      obtain ⟨r, hr, rfl⟩ := hb
      exact hwd r hr
    rw [hrep, List.sum_replicate, smul_eq_mul]
  rw [from_base64]
  simp only [hwords]
  rw [if_pos hlen]
  congr 1
  have hc := chunk_flatten width rows hwd
  rw [hh] at hc
  exact hc

/-- C6 witness: a concrete 2×2 field of float32 bit patterns, including
the extremes `1` and `2^32 - 1`. -/
theorem base64_roundtrip_bitexact_witness :
    from_base64 (to_base64 [[1, 4294967295], [65536, 256]]) 2 2
      = some [[1, 4294967295], [65536, 256]] :=
  base64_roundtrip_bitexact [[1, 4294967295], [65536, 256]] 2 2 (by decide)
    (by decide) (by decide)


/-!
Embedding of `MeshGenerator.create_relief_mesh` (`mesh_generator.py`):
`np.fliplr`, `np.linspace` coordinates, the two relief surfaces and the
four side walls, translated loop by loop from the source.
-/

/-- `np.fliplr`: reverse the column order. -/
def fliplr (g : Grid) : Grid := ⟨g.h, g.w, fun i j => g.get i (g.w - 1 - j)⟩

/-- `np.linspace(start, start + span, n)` at index `k` (exact endpoints;
`n = 1` gives `start`, matching numpy). -/
def linspaceAt (start span : ℚ) (n k : ℕ) : ℚ := start + span * k / ((n : ℚ) - 1)


/-- `MeshGenerator._generate_surface_triangles`: two triangles per grid
cell, vertex order flipped between top and bottom surfaces. -/
def surfaceTriangles (X Y Z : ℕ → ℕ → ℚ) (h w : ℕ) (flip : Bool) : List Tri :=
  (List.range (h - 1)).flatMap fun i =>
    (List.range (w - 1)).flatMap fun j =>
      let v00 : Vec3 := (X i j, Y i j, Z i j)
      let v10 : Vec3 := (X i (j+1), Y i (j+1), Z i (j+1))
      let v01 : Vec3 := (X (i+1) j, Y (i+1) j, Z (i+1) j)
      let v11 : Vec3 := (X (i+1) (j+1), Y (i+1) (j+1), Z (i+1) (j+1))
      if flip then [(v00, v01, v10), (v10, v01, v11)]
      else [(v00, v10, v01), (v10, v11, v01)]

theorem mem_meshVerts_surface (X Y Z : ℕ → ℕ → ℚ) (h w : ℕ) (flip : Bool) (v : Vec3)
    (hv : v ∈ meshVerts (surfaceTriangles X Y Z h w flip)) :
    ∃ i < h, ∃ j < w, v = (X i j, Y i j, Z i j) := by
  simp only [meshVerts] at hv
  rw [List.mem_flatMap] at hv
  obtain ⟨t, ht, hvt⟩ := hv
  simp only [surfaceTriangles] at ht
  rw [List.mem_flatMap] at ht
  obtain ⟨i, hi, ht⟩ := ht
  rw [List.mem_flatMap] at ht
  obtain ⟨j, hj, ht⟩ := ht
  rw [List.mem_range] at hi hj
  cases flip <;>
    simp only [if_true, if_false, Bool.false_eq_true, List.mem_cons, List.not_mem_nil,
      or_false] at ht <;>
    rcases ht with rfl | rfl <;>
    simp only [triVerts, List.mem_cons, List.not_mem_nil, or_false] at hvt <;>
    rcases hvt with rfl | rfl | rfl <;>
    first
      | exact ⟨i, by omega, j, by omega, rfl⟩
      | exact ⟨i, by omega, j + 1, by omega, rfl⟩
      | exact ⟨i + 1, by omega, j, by omega, rfl⟩
      | exact ⟨i + 1, by omega, j + 1, by omega, rfl⟩

theorem surface_vertex_mem (X Y Z : ℕ → ℕ → ℚ) (h w : ℕ) (flip : Bool)
    (i j : ℕ) (hi : i < h) (hj : j < w) (hh : 2 ≤ h) (hw : 2 ≤ w) :
    ((X i j, Y i j, Z i j) : Vec3) ∈ meshVerts (surfaceTriangles X Y Z h w flip) := by
  obtain ⟨a, ha1, ha2⟩ : ∃ a, a < h - 1 ∧ (i = a ∨ i = a + 1) :=
    ⟨min i (h - 2), by omega, by omega⟩
  obtain ⟨b, hb1, hb2⟩ : ∃ b, b < w - 1 ∧ (j = b ∨ j = b + 1) :=
    ⟨min j (w - 2), by omega, by omega⟩
  rcases ha2 with rfl | rfl
  · rcases hb2 with rfl | rfl
    · cases flip
      · exact List.mem_flatMap.2 ⟨_, List.mem_flatMap.2 ⟨_, List.mem_range.2 ha1,
          List.mem_flatMap.2 ⟨_, List.mem_range.2 hb1,
            List.mem_cons_self _ _⟩⟩,
          List.mem_cons_self _ _⟩
      · exact List.mem_flatMap.2 ⟨_, List.mem_flatMap.2 ⟨_, List.mem_range.2 ha1,
          List.mem_flatMap.2 ⟨_, List.mem_range.2 hb1,
            List.mem_cons_self _ _⟩⟩,
          List.mem_cons_self _ _⟩
    · cases flip
      · exact List.mem_flatMap.2 ⟨_, List.mem_flatMap.2 ⟨_, List.mem_range.2 ha1,
          List.mem_flatMap.2 ⟨_, List.mem_range.2 hb1,
            List.mem_cons_self _ _⟩⟩,
          List.mem_cons_of_mem _ (List.mem_cons_self _ _)⟩
      · exact List.mem_flatMap.2 ⟨_, List.mem_flatMap.2 ⟨_, List.mem_range.2 ha1,
          List.mem_flatMap.2 ⟨_, List.mem_range.2 hb1,
            List.mem_cons_self _ _⟩⟩,
          List.mem_cons_of_mem _ (List.mem_cons_of_mem _ (List.mem_cons_self _ _))⟩
  · rcases hb2 with rfl | rfl
    · cases flip
      · exact List.mem_flatMap.2 ⟨_, List.mem_flatMap.2 ⟨_, List.mem_range.2 ha1,
          List.mem_flatMap.2 ⟨_, List.mem_range.2 hb1,
            List.mem_cons_self _ _⟩⟩,
          List.mem_cons_of_mem _ (List.mem_cons_of_mem _ (List.mem_cons_self _ _))⟩
      · exact List.mem_flatMap.2 ⟨_, List.mem_flatMap.2 ⟨_, List.mem_range.2 ha1,
          List.mem_flatMap.2 ⟨_, List.mem_range.2 hb1,
            List.mem_cons_self _ _⟩⟩,
          List.mem_cons_of_mem _ (List.mem_cons_self _ _)⟩
    · cases flip
      · exact List.mem_flatMap.2 ⟨_, List.mem_flatMap.2 ⟨_, List.mem_range.2 ha1,
          List.mem_flatMap.2 ⟨_, List.mem_range.2 hb1,
            List.mem_cons_of_mem _ (List.mem_cons_self _ _)⟩⟩,
          List.mem_cons_of_mem _ (List.mem_cons_self _ _)⟩
      · exact List.mem_flatMap.2 ⟨_, List.mem_flatMap.2 ⟨_, List.mem_range.2 ha1,
          List.mem_flatMap.2 ⟨_, List.mem_range.2 hb1,
            List.mem_cons_of_mem _ (List.mem_cons_self _ _)⟩⟩,
          List.mem_cons_of_mem _ (List.mem_cons_of_mem _ (List.mem_cons_self _ _))⟩

def sideWalls (X Y Zt Zb : ℕ → ℕ → ℚ) (h w : ℕ) : List Tri :=
  ((List.range (w - 1)).flatMap fun j =>
    [((X 0 j, Y 0 j, Zb 0 j), (X 0 (j+1), Y 0 (j+1), Zb 0 (j+1)), (X 0 j, Y 0 j, Zt 0 j)),
     ((X 0 (j+1), Y 0 (j+1), Zb 0 (j+1)), (X 0 (j+1), Y 0 (j+1), Zt 0 (j+1)),
       (X 0 j, Y 0 j, Zt 0 j))])
  ++ ((List.range (w - 1)).flatMap fun j =>
    [((X (h-1) j, Y (h-1) j, Zb (h-1) j), (X (h-1) j, Y (h-1) j, Zt (h-1) j),
       (X (h-1) (j+1), Y (h-1) (j+1), Zb (h-1) (j+1))),
     ((X (h-1) (j+1), Y (h-1) (j+1), Zb (h-1) (j+1)), (X (h-1) j, Y (h-1) j, Zt (h-1) j),
       (X (h-1) (j+1), Y (h-1) (j+1), Zt (h-1) (j+1)))])
  ++ ((List.range (h - 1)).flatMap fun i =>
    [((X i 0, Y i 0, Zb i 0), (X i 0, Y i 0, Zt i 0), (X (i+1) 0, Y (i+1) 0, Zb (i+1) 0)),
     ((X (i+1) 0, Y (i+1) 0, Zb (i+1) 0), (X i 0, Y i 0, Zt i 0),
       (X (i+1) 0, Y (i+1) 0, Zt (i+1) 0))])
  ++ ((List.range (h - 1)).flatMap fun i =>
    [((X i (w-1), Y i (w-1), Zb i (w-1)), (X (i+1) (w-1), Y (i+1) (w-1), Zb (i+1) (w-1)),
       (X i (w-1), Y i (w-1), Zt i (w-1))),
     ((X (i+1) (w-1), Y (i+1) (w-1), Zb (i+1) (w-1)),
       (X (i+1) (w-1), Y (i+1) (w-1), Zt (i+1) (w-1)), (X i (w-1), Y i (w-1), Zt i (w-1)))])

theorem mem_meshVerts_sideWalls (X Y Zt Zb : ℕ → ℕ → ℚ) (h w : ℕ) (v : Vec3)
    (hh : 1 ≤ h) (hw : 1 ≤ w)
    (hv : v ∈ meshVerts (sideWalls X Y Zt Zb h w)) :
    ∃ i < h, ∃ j < w, v = (X i j, Y i j, Zt i j) ∨ v = (X i j, Y i j, Zb i j) := by
  simp only [meshVerts] at hv
  rw [List.mem_flatMap] at hv
  obtain ⟨t, ht, hvt⟩ := hv
  simp only [sideWalls, List.mem_append] at ht
  rcases ht with (((ht | ht) | ht) | ht) <;>
    · rw [List.mem_flatMap] at ht
      obtain ⟨k, hk, ht⟩ := ht
      rw [List.mem_range] at hk
      simp only [List.mem_cons, List.not_mem_nil, or_false] at ht
      rcases ht with rfl | rfl <;>
        simp only [triVerts, List.mem_cons, List.not_mem_nil, or_false] at hvt <;>
        rcases hvt with rfl | rfl | rfl <;>
        first
          | exact ⟨0, by omega, k, by omega, Or.inl rfl⟩
          | exact ⟨0, by omega, k, by omega, Or.inr rfl⟩
          | exact ⟨0, by omega, k + 1, by omega, Or.inl rfl⟩
          | exact ⟨0, by omega, k + 1, by omega, Or.inr rfl⟩
          | exact ⟨h - 1, by omega, k, by omega, Or.inl rfl⟩
          | exact ⟨h - 1, by omega, k, by omega, Or.inr rfl⟩
          | exact ⟨h - 1, by omega, k + 1, by omega, Or.inl rfl⟩
          | exact ⟨h - 1, by omega, k + 1, by omega, Or.inr rfl⟩
          | exact ⟨k, by omega, 0, by omega, Or.inl rfl⟩
          | exact ⟨k, by omega, 0, by omega, Or.inr rfl⟩
          | exact ⟨k + 1, by omega, 0, by omega, Or.inl rfl⟩
          | exact ⟨k + 1, by omega, 0, by omega, Or.inr rfl⟩
          | exact ⟨k, by omega, w - 1, by omega, Or.inl rfl⟩
          | exact ⟨k, by omega, w - 1, by omega, Or.inr rfl⟩
          | exact ⟨k + 1, by omega, w - 1, by omega, Or.inl rfl⟩
          | exact ⟨k + 1, by omega, w - 1, by omega, Or.inr rfl⟩

def create_relief_mesh (heightmap : Grid)
    (width_mm height_mm base_layer_mm offset_x offset_y : ℚ) : List Tri :=
  let g := fliplr heightmap
  let X : ℕ → ℕ → ℚ := fun _ j => linspaceAt offset_x width_mm g.w j
  let Y : ℕ → ℕ → ℚ := fun i _ => linspaceAt offset_y height_mm g.h i
  let Zt : ℕ → ℕ → ℚ := fun i j => g.get i j + base_layer_mm
  let Zb : ℕ → ℕ → ℚ := fun _ _ => 0
  surfaceTriangles X Y Zt g.h g.w false
    ++ surfaceTriangles X Y Zb g.h g.w true
    ++ sideWalls X Y Zt Zb g.h g.w

theorem mem_meshVerts_create (f : Grid) (W H B ox oy : ℚ) (v : Vec3)
    (hh : 1 ≤ f.h) (hw : 1 ≤ f.w)
    (hv : v ∈ meshVerts (create_relief_mesh f W H B ox oy)) :
    ∃ i < f.h, ∃ j < f.w,
      v = (linspaceAt ox W f.w j, linspaceAt oy H f.h i, f.get i (f.w - 1 - j) + B) ∨
      v = (linspaceAt ox W f.w j, linspaceAt oy H f.h i, 0) := by
  simp only [create_relief_mesh, meshVerts, List.flatMap_append, List.mem_append] at hv
  rcases hv with (hv | hv) | hv
  · obtain ⟨i, hi, j, hj, he⟩ := mem_meshVerts_surface _ _ _ _ _ _ v hv
    exact ⟨i, hi, j, hj, Or.inl he⟩
  · obtain ⟨i, hi, j, hj, he⟩ := mem_meshVerts_surface _ _ _ _ _ _ v hv
    exact ⟨i, hi, j, hj, Or.inr he⟩
  · obtain ⟨i, hi, j, hj, he⟩ := mem_meshVerts_sideWalls _ _ _ _ _ _ v hh hw hv
    exact ⟨i, hi, j, hj, he⟩

theorem create_vertex_mem_top (f : Grid) (W H B ox oy : ℚ)
    (hh : 2 ≤ f.h) (hw : 2 ≤ f.w) (i j : ℕ) (hi : i < f.h) (hj : j < f.w) :
    ((linspaceAt ox W f.w j, linspaceAt oy H f.h i, f.get i (f.w - 1 - j) + B) : Vec3)
      ∈ meshVerts (create_relief_mesh f W H B ox oy) := by
  simp only [create_relief_mesh, meshVerts, List.flatMap_append, List.mem_append]
  exact Or.inl (Or.inl (surface_vertex_mem _ _ _ _ _ _ i j hi hj hh hw))

theorem create_vertex_mem_bottom (f : Grid) (W H B ox oy : ℚ)
    (hh : 2 ≤ f.h) (hw : 2 ≤ f.w) (i j : ℕ) (hi : i < f.h) (hj : j < f.w) :
    ((linspaceAt ox W f.w j, linspaceAt oy H f.h i, (0 : ℚ)) : Vec3)
      ∈ meshVerts (create_relief_mesh f W H B ox oy) := by
  simp only [create_relief_mesh, meshVerts, List.flatMap_append, List.mem_append]
  exact Or.inl (Or.inr (surface_vertex_mem _ _ _ _ _ _ i j hi hj hh hw))

theorem linspaceAt_zero (start span : ℚ) (n : ℕ) : linspaceAt start span n 0 = start := by
  simp [linspaceAt]

theorem linspaceAt_last (start span : ℚ) (n : ℕ) (hn : 2 ≤ n) :
    linspaceAt start span n (n - 1) = start + span := by
  have h1 : ((n - 1 : ℕ) : ℚ) = (n : ℚ) - 1 := by
    have h2 : (1 : ℕ) ≤ n := by omega
    push_cast [h2]
    ring
  have hd : ((n : ℚ) - 1) ≠ 0 := by
    have : (2 : ℚ) ≤ (n : ℚ) := by exact_mod_cast hn
    intro hc; rw [sub_eq_zero] at hc; rw [hc] at this; norm_num at this
  rw [linspaceAt, h1, mul_div_assoc, div_self hd, mul_one]

theorem linspaceAt_bounds (start span : ℚ) (n k : ℕ) (hn : 2 ≤ n) (hk : k < n)
    (hs : 0 ≤ span) :
    start ≤ linspaceAt start span n k ∧ linspaceAt start span n k ≤ start + span := by
  have hd : (0 : ℚ) < (n : ℚ) - 1 := by
    have : (2 : ℚ) ≤ (n : ℚ) := by exact_mod_cast hn
    linarith
  have hkn : (k : ℚ) + 1 ≤ (n : ℚ) := by exact_mod_cast hk
  constructor
  · have : 0 ≤ span * k / ((n : ℚ) - 1) :=
      div_nonneg (mul_nonneg hs (by positivity)) (le_of_lt hd)
    rw [linspaceAt]; linarith
  · have : span * k / ((n : ℚ) - 1) ≤ span := by
      rw [div_le_iff₀ hd]
      have : span * (k : ℚ) ≤ span * ((n : ℚ) - 1) :=
        mul_le_mul_of_nonneg_left (by linarith) hs
      linarith
    rw [linspaceAt]; linarith

theorem gridMax_attained (g : Grid) (hh : 1 ≤ g.h) (hw : 1 ≤ g.w) :
    ∃ i < g.h, ∃ j < g.w, g.get i j = gridMax g := by
  have hne : gridSamples g ≠ [] :=
    List.ne_nil_of_mem ((mem_gridSamples g (g.get 0 0)).2 ⟨0, by omega, 0, by omega, rfl⟩)
  have hm := listMax_mem _ hne
  rw [mem_gridSamples] at hm
  obtain ⟨i, hi, j, hj, he⟩ := hm
  exact ⟨i, hi, j, hj, he.symm⟩

theorem le_gridMax (g : Grid) (i j : ℕ) (hi : i < g.h) (hj : j < g.w) :
    g.get i j ≤ gridMax g :=
  le_listMax _ _ ((mem_gridSamples g _).2 ⟨i, hi, j, hj, rfl⟩)

theorem linspaceAt_inj (start span : ℚ) (n : ℕ) (hn : 2 ≤ n) (hs : span ≠ 0)
    (j k : ℕ) (he : linspaceAt start span n j = linspaceAt start span n k) : j = k := by
  rw [linspaceAt, linspaceAt] at he
  have hd : ((n : ℚ) - 1) ≠ 0 := by
    have : (2 : ℚ) ≤ (n : ℚ) := by exact_mod_cast hn
    intro hc; rw [sub_eq_zero] at hc; rw [hc] at this; norm_num at this
  have h1 := add_left_cancel he
  rw [div_eq_div_iff hd hd] at h1
  have h2 : span * (j : ℚ) = span * (k : ℚ) := mul_right_cancel₀ hd h1
  have h3 : (j : ℚ) = (k : ℚ) := mul_left_cancel₀ hs h2
  exact_mod_cast h3


/-- C1 (amended): for a field with at least 2 samples per axis,
nonnegative `width_mm`/`height_mm`, and a base layer making every top
height nonnegative, the solid's bounding box is exactly
`[offset_x, offset_x+width] × [offset_y, offset_y+height] × [0, max(field)+base]`. -/
theorem create_relief_mesh_bbox (f : Grid) (W H B ox oy : ℚ)
    (hh : 2 ≤ f.h) (hw : 2 ≤ f.w) (hW : 0 ≤ W) (hH : 0 ≤ H)
    (hB : ∀ i < f.h, ∀ j < f.w, 0 ≤ f.get i j + B) :
    listMin ((meshVerts (create_relief_mesh f W H B ox oy)).map fun v => v.1) = ox ∧
    listMax ((meshVerts (create_relief_mesh f W H B ox oy)).map fun v => v.1) = ox + W ∧
    listMin ((meshVerts (create_relief_mesh f W H B ox oy)).map fun v => v.2.1) = oy ∧
    listMax ((meshVerts (create_relief_mesh f W H B ox oy)).map fun v => v.2.1) = oy + H ∧
    listMin ((meshVerts (create_relief_mesh f W H B ox oy)).map fun v => v.2.2) = 0 ∧
    listMax ((meshVerts (create_relief_mesh f W H B ox oy)).map fun v => v.2.2) = gridMax f + B := by
  obtain ⟨ia, hia, ja, hja, hat⟩ := gridMax_attained f (by omega) (by omega)
  have hv00 := create_vertex_mem_bottom f W H B ox oy hh hw 0 0 (by omega) (by omega)
  have hvlast := create_vertex_mem_bottom f W H B ox oy hh hw (f.h - 1) (f.w - 1)
    (by omega) (by omega)
  have hidx : f.w - 1 - (f.w - 1 - ja) = ja := by omega
  have hvtop := create_vertex_mem_top f W H B ox oy hh hw ia (f.w - 1 - ja) hia (by omega)
  rw [hidx, hat] at hvtop
  have hzmax0 : 0 ≤ gridMax f + B := by rw [← hat]; exact hB ia hia ja hja
  refine ⟨?_, ?_, ?_, ?_, ?_, ?_⟩
  · refine listMin_eq _ _ (List.mem_map.2 ⟨_, hv00, linspaceAt_zero ox W f.w⟩) ?_
    intro e he
    obtain ⟨v, hv, rfl⟩ := List.mem_map.1 he
    obtain ⟨i, hi, j, hj, hc⟩ := mem_meshVerts_create f W H B ox oy v (by omega) (by omega) hv
    have hx : v.1 = linspaceAt ox W f.w j := by rcases hc with rfl | rfl <;> rfl
    rw [hx]
    exact (linspaceAt_bounds ox W f.w j hw hj hW).1
  · refine listMax_eq _ _ (List.mem_map.2 ⟨_, hvlast, linspaceAt_last ox W f.w hw⟩) ?_
    intro e he
    obtain ⟨v, hv, rfl⟩ := List.mem_map.1 he
    obtain ⟨i, hi, j, hj, hc⟩ := mem_meshVerts_create f W H B ox oy v (by omega) (by omega) hv
    have hx : v.1 = linspaceAt ox W f.w j := by rcases hc with rfl | rfl <;> rfl
    rw [hx]
    exact (linspaceAt_bounds ox W f.w j hw hj hW).2
  · refine listMin_eq _ _ (List.mem_map.2 ⟨_, hv00, linspaceAt_zero oy H f.h⟩) ?_
    intro e he
    obtain ⟨v, hv, rfl⟩ := List.mem_map.1 he
    obtain ⟨i, hi, j, hj, hc⟩ := mem_meshVerts_create f W H B ox oy v (by omega) (by omega) hv
    have hy : v.2.1 = linspaceAt oy H f.h i := by rcases hc with rfl | rfl <;> rfl
    rw [hy]
    exact (linspaceAt_bounds oy H f.h i hh hi hH).1
  · refine listMax_eq _ _ (List.mem_map.2 ⟨_, hvlast, linspaceAt_last oy H f.h hh⟩) ?_
    intro e he
    obtain ⟨v, hv, rfl⟩ := List.mem_map.1 he
    obtain ⟨i, hi, j, hj, hc⟩ := mem_meshVerts_create f W H B ox oy v (by omega) (by omega) hv
    have hy : v.2.1 = linspaceAt oy H f.h i := by rcases hc with rfl | rfl <;> rfl
    rw [hy]
    exact (linspaceAt_bounds oy H f.h i hh hi hH).2
  · refine listMin_eq _ _ (List.mem_map.2 ⟨_, hv00, rfl⟩) ?_
    intro e he
    obtain ⟨v, hv, rfl⟩ := List.mem_map.1 he
    obtain ⟨i, hi, j, hj, hc⟩ := mem_meshVerts_create f W H B ox oy v (by omega) (by omega) hv
    rcases hc with rfl | rfl
    · exact hB i hi (f.w - 1 - j) (by omega)
    · exact le_refl 0
  · refine listMax_eq _ _ (List.mem_map.2 ⟨_, hvtop, rfl⟩) ?_
    intro e he
    obtain ⟨v, hv, rfl⟩ := List.mem_map.1 he
    obtain ⟨i, hi, j, hj, hc⟩ := mem_meshVerts_create f W H B ox oy v (by omega) (by omega) hv
    rcases hc with rfl | rfl
    · exact add_le_add_right (le_gridMax f i (f.w - 1 - j) hi (by omega)) B
    · exact hzmax0

/-- C1 witness: a concrete 2×2 field with depths `0..3`, `width = 2`,
`height = 3`, `base = 1/4`, offsets `(5, 7)`. -/
theorem create_relief_mesh_bbox_witness :
    listMin ((meshVerts (create_relief_mesh (Grid.ofRows [[0, 1], [2, 3]]) 2 3 (1/4) 5 7)).map fun v => v.1) = 5 ∧
    listMax ((meshVerts (create_relief_mesh (Grid.ofRows [[0, 1], [2, 3]]) 2 3 (1/4) 5 7)).map fun v => v.1) = 5 + 2 ∧
    listMin ((meshVerts (create_relief_mesh (Grid.ofRows [[0, 1], [2, 3]]) 2 3 (1/4) 5 7)).map fun v => v.2.1) = 7 ∧
    listMax ((meshVerts (create_relief_mesh (Grid.ofRows [[0, 1], [2, 3]]) 2 3 (1/4) 5 7)).map fun v => v.2.1) = 7 + 3 ∧
    listMin ((meshVerts (create_relief_mesh (Grid.ofRows [[0, 1], [2, 3]]) 2 3 (1/4) 5 7)).map fun v => v.2.2) = 0 ∧
    listMax ((meshVerts (create_relief_mesh (Grid.ofRows [[0, 1], [2, 3]]) 2 3 (1/4) 5 7)).map fun v => v.2.2) = gridMax (Grid.ofRows [[0, 1], [2, 3]]) + 1/4 :=
  create_relief_mesh_bbox (Grid.ofRows [[0, 1], [2, 3]]) 2 3 (1/4) 5 7
    (by norm_num [Grid.ofRows]) (by norm_num [Grid.ofRows]) (by norm_num) (by norm_num)
    (by
      intro i hi j hj
      have hi2 : i < 2 := hi
      have hj2 : j < 2 := hj
      interval_cases i <;> interval_cases j <;> norm_num [Grid.ofRows])

/-- C1 counterexample: with the all-negative field `[[-1,-1],[-1,-1]]` and
`base_layer_mm = 0` the claim's z-interval `[0, max(field)+base]` would be
`[0, -1]`, but the actual z-maximum of the solid is `0` (the flat bottom),
not `max(field) + base = -1`. -/
theorem create_relief_mesh_bbox_cx :
    gridMax (Grid.ofRows [[-1, -1], [-1, -1]]) + 0 = -1 ∧
    listMax ((meshVerts (create_relief_mesh (Grid.ofRows [[-1, -1], [-1, -1]]) 1 1 0 0 0)).map
      fun v => v.2.2) = 0 := by
  constructor
  · norm_num [gridMax, gridSamples, Grid.ofRows, listMax, List.range_succ, max_def]
  · refine listMax_eq _ _ (List.mem_map.2 ⟨_,
      create_vertex_mem_bottom (Grid.ofRows [[-1, -1], [-1, -1]]) 1 1 0 0 0
        (by norm_num [Grid.ofRows]) (by norm_num [Grid.ofRows]) 0 0
        (by norm_num [Grid.ofRows]) (by norm_num [Grid.ofRows]), rfl⟩) ?_
    intro e he
    obtain ⟨v, hv, rfl⟩ := List.mem_map.1 he
    obtain ⟨i, hi, j, hj, hc⟩ := mem_meshVerts_create (Grid.ofRows [[-1, -1], [-1, -1]])
      1 1 0 0 0 v (by norm_num [Grid.ofRows]) (by norm_num [Grid.ofRows]) hv
    rcases hc with rfl | rfl
    · have hi2 : i < 2 := hi
      have hj2 : j < 2 := hj
      interval_cases i <;> interval_cases j <;> norm_num [Grid.ofRows]
    · norm_num

/-- C2: the horizontal mirror (`np.fliplr`) before coordinate
construction: the top-surface vertex in row `i` at
`x = offset_x + j/(w-1)*width` carries the mirrored sample
`field[i][(w-1)-j] + base_layer_mm`; and, with nonzero physical dimensions
(which make grid positions unique), every mesh vertex at that position is
either that mirrored top vertex or a bottom/wall vertex at `z = 0`. -/
theorem create_relief_mesh_mirror (f : Grid) (W H B ox oy : ℚ)
    (hh : 2 ≤ f.h) (hw : 2 ≤ f.w) (i j : ℕ) (hi : i < f.h) (hj : j < f.w) :
    ((linspaceAt ox W f.w j, linspaceAt oy H f.h i, f.get i (f.w - 1 - j) + B) : Vec3)
      ∈ meshVerts (create_relief_mesh f W H B ox oy) ∧
    (W ≠ 0 → H ≠ 0 → ∀ v ∈ meshVerts (create_relief_mesh f W H B ox oy),
      v.1 = linspaceAt ox W f.w j → v.2.1 = linspaceAt oy H f.h i →
      v.2.2 = f.get i (f.w - 1 - j) + B ∨ v.2.2 = 0) := by
  refine ⟨create_vertex_mem_top f W H B ox oy hh hw i j hi hj, ?_⟩
  intro hWne hHne v hv hx hy
  obtain ⟨a, ha, b, hb, hc⟩ := mem_meshVerts_create f W H B ox oy v (by omega) (by omega) hv
  have hxv : v.1 = linspaceAt ox W f.w b := by rcases hc with rfl | rfl <;> rfl
  have hyv : v.2.1 = linspaceAt oy H f.h a := by rcases hc with rfl | rfl <;> rfl
  have hbj : b = j := linspaceAt_inj ox W f.w hw hWne b j (by rw [← hxv, hx])
  have hai : a = i := linspaceAt_inj oy H f.h hh hHne a i (by rw [← hyv, hy])
  subst hbj
  subst hai
  rcases hc with rfl | rfl
  · exact Or.inl rfl
  · exact Or.inr rfl

/-- C2 witness: the mirrored top vertex at `(i, j) = (0, 0)` of a concrete
2×2 field. -/
theorem create_relief_mesh_mirror_witness :
    ((linspaceAt 0 1 (Grid.ofRows [[1, 2], [3, 4]]).w 0,
        linspaceAt 0 1 (Grid.ofRows [[1, 2], [3, 4]]).h 0,
        (Grid.ofRows [[1, 2], [3, 4]]).get 0 ((Grid.ofRows [[1, 2], [3, 4]]).w - 1 - 0) + 0) : Vec3)
      ∈ meshVerts (create_relief_mesh (Grid.ofRows [[1, 2], [3, 4]]) 1 1 0 0 0) ∧
    ((1 : ℚ) ≠ 0 → (1 : ℚ) ≠ 0 →
      ∀ v ∈ meshVerts (create_relief_mesh (Grid.ofRows [[1, 2], [3, 4]]) 1 1 0 0 0),
      v.1 = linspaceAt 0 1 (Grid.ofRows [[1, 2], [3, 4]]).w 0 →
      v.2.1 = linspaceAt 0 1 (Grid.ofRows [[1, 2], [3, 4]]).h 0 →
      v.2.2 = (Grid.ofRows [[1, 2], [3, 4]]).get 0 ((Grid.ofRows [[1, 2], [3, 4]]).w - 1 - 0) + 0
        ∨ v.2.2 = 0) :=
  create_relief_mesh_mirror (Grid.ofRows [[1, 2], [3, 4]]) 1 1 0 0 0
    (by norm_num [Grid.ofRows]) (by norm_num [Grid.ofRows]) 0 0
    (by norm_num [Grid.ofRows]) (by norm_num [Grid.ofRows])


/-- `MeshGenerator._create_box`: the 12 triangles (2 per face) of an
axis-aligned box, with the corner and face tables of the source. -/
def create_box (x y width depth z_min z_max : ℚ) : List Tri :=
  let c0 : Vec3 := (x, y, z_min)
  let c1 : Vec3 := (x + width, y, z_min)
  let c2 : Vec3 := (x + width, y + depth, z_min)
  let c3 : Vec3 := (x, y + depth, z_min)
  let c4 : Vec3 := (x, y, z_max)
  let c5 : Vec3 := (x + width, y, z_max)
  let c6 : Vec3 := (x + width, y + depth, z_max)
  let c7 : Vec3 := (x, y + depth, z_max)
  [(c0, c2, c1), (c0, c3, c2),
   (c4, c5, c6), (c4, c6, c7),
   (c0, c1, c5), (c0, c5, c4),
   (c2, c7, c3), (c2, c6, c7),
   (c0, c4, c7), (c0, c7, c3),
   (c1, c6, c2), (c1, c5, c6)]

/-- `MeshGenerator.add_border`: four border boxes (front, back, left,
right) around the model footprint, each spanning
`z ∈ [0, base_layer_mm + border_depth_mm]`. -/
def add_border (width_mm height_mm border_width_mm border_depth_mm base_layer_mm : ℚ) :
    List Tri :=
  let outer_w := width_mm + 2 * border_width_mm
  let z_top := base_layer_mm + border_depth_mm
  create_box 0 0 outer_w border_width_mm 0 z_top
    ++ create_box 0 (height_mm + border_width_mm) outer_w border_width_mm 0 z_top
    ++ create_box 0 border_width_mm border_width_mm height_mm 0 z_top
    ++ create_box (width_mm + border_width_mm) border_width_mm border_width_mm height_mm 0 z_top

theorem create_box_verts (x y w d zl zh : ℚ) (v : Vec3)
    (hv : v ∈ meshVerts (create_box x y w d zl zh)) :
    (v.1 = x ∨ v.1 = x + w) ∧ (v.2.1 = y ∨ v.2.1 = y + d) ∧ (v.2.2 = zl ∨ v.2.2 = zh) := by
  simp only [meshVerts, create_box, triVerts, List.flatMap_cons, List.flatMap_nil,
    List.append_nil, List.cons_append, List.nil_append, List.mem_cons,
    List.not_mem_nil, or_false] at hv
  rcases hv with rfl|rfl|rfl|rfl|rfl|rfl|rfl|rfl|rfl|rfl|rfl|rfl|rfl|rfl|rfl|rfl|rfl|rfl|
    rfl|rfl|rfl|rfl|rfl|rfl|rfl|rfl|rfl|rfl|rfl|rfl|rfl|rfl|rfl|rfl|rfl|rfl <;> simp

theorem create_box_corner0 (x y w d zl zh : ℚ) :
    ((x, y, zl) : Vec3) ∈ meshVerts (create_box x y w d zl zh) := by
  simp [meshVerts, create_box, triVerts]

theorem create_box_corner1 (x y w d zl zh : ℚ) :
    ((x + w, y, zl) : Vec3) ∈ meshVerts (create_box x y w d zl zh) := by
  simp [meshVerts, create_box, triVerts]

theorem create_box_corner3 (x y w d zl zh : ℚ) :
    ((x, y + d, zl) : Vec3) ∈ meshVerts (create_box x y w d zl zh) := by
  simp [meshVerts, create_box, triVerts]

theorem create_box_corner4 (x y w d zl zh : ℚ) :
    ((x, y, zh) : Vec3) ∈ meshVerts (create_box x y w d zl zh) := by
  simp [meshVerts, create_box, triVerts]

theorem add_border_vert_bounds (W H bw bd base : ℚ)
    (hW : 0 ≤ W) (hH : 0 ≤ H) (hbw : 0 ≤ bw) (hz : 0 ≤ base + bd) (v : Vec3)
    (hv : v ∈ meshVerts (add_border W H bw bd base)) :
    0 ≤ v.1 ∧ v.1 ≤ W + 2 * bw ∧ 0 ≤ v.2.1 ∧ v.2.1 ≤ H + 2 * bw ∧
      0 ≤ v.2.2 ∧ v.2.2 ≤ base + bd := by
  simp only [add_border, meshVerts, List.flatMap_append, List.mem_append] at hv
  rcases hv with ((hv | hv) | hv) | hv <;>
    obtain ⟨hx, hy, hzz⟩ := create_box_verts _ _ _ _ _ _ _ hv <;>
    rcases hx with hx | hx <;> rcases hy with hy | hy <;> rcases hzz with hzz | hzz <;>
    refine ⟨by linarith, by linarith, by linarith, by linarith, by linarith, by linarith⟩

/-- C9 (amended): for nonnegative `width_mm`, `height_mm`,
`border_width_mm` and nonnegative total border height
`base_layer_mm + border_depth_mm`, `add_border` returns exactly 48
triangles (four 12-triangle boxes) with bounding box exactly
`[0, width+2·border] × [0, height+2·border] × [0, base+depth]`; the
triangle count is 48 for all parameters. -/
theorem add_border_bbox (W H bw bd base : ℚ)
    (hW : 0 ≤ W) (hH : 0 ≤ H) (hbw : 0 ≤ bw) (hz : 0 ≤ base + bd) :
    (add_border W H bw bd base).length = 48 ∧
    listMin ((meshVerts (add_border W H bw bd base)).map fun v => v.1) = 0 ∧
    listMax ((meshVerts (add_border W H bw bd base)).map fun v => v.1) = W + 2 * bw ∧
    listMin ((meshVerts (add_border W H bw bd base)).map fun v => v.2.1) = 0 ∧
    listMax ((meshVerts (add_border W H bw bd base)).map fun v => v.2.1) = H + 2 * bw ∧
    listMin ((meshVerts (add_border W H bw bd base)).map fun v => v.2.2) = 0 ∧
    listMax ((meshVerts (add_border W H bw bd base)).map fun v => v.2.2) = base + bd := by
  have hb := add_border_vert_bounds W H bw bd base hW hH hbw hz
  have hm1 : ((0 : ℚ), (0 : ℚ), (0 : ℚ)) ∈ meshVerts (add_border W H bw bd base) := by
    simp only [add_border, meshVerts, List.flatMap_append, List.mem_append]
    exact Or.inl (Or.inl (Or.inl (create_box_corner0 0 0 (W + 2 * bw) bw 0 (base + bd))))
  have hm2 : ((0 + (W + 2 * bw) : ℚ), (0 : ℚ), (0 : ℚ)) ∈ meshVerts (add_border W H bw bd base) := by
    simp only [add_border, meshVerts, List.flatMap_append, List.mem_append]
    exact Or.inl (Or.inl (Or.inl (create_box_corner1 0 0 (W + 2 * bw) bw 0 (base + bd))))
  have hm3 : ((0 : ℚ), ((H + bw) + bw : ℚ), (0 : ℚ)) ∈ meshVerts (add_border W H bw bd base) := by
    simp only [add_border, meshVerts, List.flatMap_append, List.mem_append]
    exact Or.inl (Or.inl (Or.inr (create_box_corner3 0 (H + bw) (W + 2 * bw) bw 0 (base + bd))))
  have hm4 : ((0 : ℚ), (0 : ℚ), (base + bd : ℚ)) ∈ meshVerts (add_border W H bw bd base) := by
    simp only [add_border, meshVerts, List.flatMap_append, List.mem_append]
    exact Or.inl (Or.inl (Or.inl (create_box_corner4 0 0 (W + 2 * bw) bw 0 (base + bd))))
  refine ⟨rfl, ?_, ?_, ?_, ?_, ?_, ?_⟩
  · refine listMin_eq _ _ (List.mem_map.2 ⟨_, hm1, rfl⟩) ?_
    intro e he
    obtain ⟨v, hv, rfl⟩ := List.mem_map.1 he
    exact (hb v hv).1
  · refine listMax_eq _ _ (List.mem_map.2 ⟨_, hm2, by ring⟩) ?_
    intro e he
    obtain ⟨v, hv, rfl⟩ := List.mem_map.1 he
    exact (hb v hv).2.1
  · refine listMin_eq _ _ (List.mem_map.2 ⟨_, hm1, rfl⟩) ?_
    intro e he
    obtain ⟨v, hv, rfl⟩ := List.mem_map.1 he
    exact (hb v hv).2.2.1
  · refine listMax_eq _ _ (List.mem_map.2 ⟨_, hm3, by ring⟩) ?_
    intro e he
    obtain ⟨v, hv, rfl⟩ := List.mem_map.1 he
    exact (hb v hv).2.2.2.1
  · refine listMin_eq _ _ (List.mem_map.2 ⟨_, hm1, rfl⟩) ?_
    intro e he
    obtain ⟨v, hv, rfl⟩ := List.mem_map.1 he
    exact (hb v hv).2.2.2.2.1
  · refine listMax_eq _ _ (List.mem_map.2 ⟨_, hm4, rfl⟩) ?_
    intro e he
    obtain ⟨v, hv, rfl⟩ := List.mem_map.1 he
    exact (hb v hv).2.2.2.2.2

/-- C9 witness: the claim's concrete scenario `width = 100`, `height = 80`,
`border_width = 5` (depth 3, base 0.16): 48 triangles and outer box
`110 × 90` in X/Y. -/
theorem add_border_bbox_witness :
    (add_border 100 80 5 3 (4/25)).length = 48 ∧
    listMin ((meshVerts (add_border 100 80 5 3 (4/25))).map fun v => v.1) = 0 ∧
    listMax ((meshVerts (add_border 100 80 5 3 (4/25))).map fun v => v.1) = 100 + 2 * 5 ∧
    listMin ((meshVerts (add_border 100 80 5 3 (4/25))).map fun v => v.2.1) = 0 ∧
    listMax ((meshVerts (add_border 100 80 5 3 (4/25))).map fun v => v.2.1) = 80 + 2 * 5 ∧
    listMin ((meshVerts (add_border 100 80 5 3 (4/25))).map fun v => v.2.2) = 0 ∧
    listMax ((meshVerts (add_border 100 80 5 3 (4/25))).map fun v => v.2.2) = 4/25 + 3 :=
  add_border_bbox 100 80 5 3 (4/25) (by norm_num) (by norm_num) (by norm_num) (by norm_num)

/-- C9 counterexample: the claim quantifies over every `border_width_mm`;
at `border_width_mm = -1` (with `width = height = 1`, `depth = 1`,
`base = 0`) the claimed bounding box would start at `x = 0`, but the mesh
reaches `x = 1 + 2·(-1) = -1 < 0`: its x-minimum is not 0. -/
theorem add_border_bbox_cx :
    listMin ((meshVerts (add_border 1 1 (-1) 1 0)).map fun v => v.1) ≠ 0 := by
  have hm : ((0 + (1 + 2 * (-1)) : ℚ)) ∈ (meshVerts (add_border 1 1 (-1) 1 0)).map
      fun v => v.1 := by
    refine List.mem_map.2 ⟨(0 + (1 + 2 * (-1)), 0, 0), ?_, rfl⟩
    simp only [add_border, meshVerts, List.flatMap_append, List.mem_append]
    exact Or.inl (Or.inl (Or.inl (create_box_corner1 0 0 (1 + 2 * (-1)) (-1) 0 (0 + 1))))
  have hle := listMin_le _ _ hm
  intro h
  rw [h] at hle
  norm_num at hle

end Layerforge
